import Mathlib

/-!
Verification of the news-aggregator core: a shallow embedding of the
TTL cache service, the article tracking store, the personalization
aggregator and the background scheduler, with theorems settling the
specification claims about them.

JS `Map` objects are modelled as association lists in insertion order
(`alookup` / `aset` / `adelete` mirror `Map.get` / `Map.set` /
`Map.delete`); timestamps are integer milliseconds; article URLs are
their UTF-8 byte sequences where byte-level behaviour matters.
-/

namespace NewsAgg

/-- JS `Map.get`: first binding of the key, if any. -/
def alookup {α β : Type} [DecidableEq α] : List (α × β) → α → Option β
  | [], _ => none
  | (k', v') :: t, k => if k' = k then some v' else alookup t k

/-- JS `Map.set`: replace the binding in place if the key exists, else append. -/
def aset {α β : Type} [DecidableEq α] : List (α × β) → α → β → List (α × β)
  | [], k, v => [(k, v)]
  | (k', v') :: t, k, v => if k' = k then (k, v) :: t else (k', v') :: aset t k v

/-- JS `Map.delete`: remove the binding and report whether it existed. -/
def adelete {α β : Type} [DecidableEq α] : List (α × β) → α → Bool × List (α × β)
  | [], _ => (false, [])
  | (k', v') :: t, k =>
    if k' = k then (true, t)
    else
      let r := adelete t k
      (r.1, (k', v') :: r.2)

/-! ## Cache service (src/services/cacheService.js) -/

structure CacheEntry (α : Type) where
  value : α
  expiresAt : Int
  cachedAt : Int
deriving DecidableEq

structure CacheState (α : Type) where
  cache : List (String × CacheEntry α)
deriving DecidableEq

namespace CacheService

/-- `generateKey(prefix, params)`: sort parameter names, join `name:value`
with `|`, prepend the prefix. Parameters are a string-valued mapping,
given as an association list. -/
def generateKey (pfx : String) (params : List (String × String)) : String :=
  let sortedParams :=
    String.intercalate "|"
      ((List.insertionSort (fun a b => a ≤ b) (params.map Prod.fst)).map
        (fun k => k ++ ":" ++ ((alookup params k).getD "")))
  pfx ++ ":" ++ sortedParams

/-- `set(key, value, ttl)` evaluated when `Date.now() = now`. -/
def set {α : Type} (st : CacheState α) (key : String) (value : α) (ttl now : Int) :
    CacheState α :=
  ⟨aset st.cache key ⟨value, now + ttl, now⟩⟩

/-- `get(key)` evaluated when `Date.now() = now`: returns the value and the
state after the call (an entry discovered expired is deleted). -/
def get {α : Type} (st : CacheState α) (key : String) (now : Int) :
    Option α × CacheState α :=
  match alookup st.cache key with
  | none => (none, st)
  | some entry =>
    if now > entry.expiresAt then (none, ⟨(adelete st.cache key).2⟩)
    else (some entry.value, st)

end CacheService

/-! ## Article id derivation (src/models/Article.js, generateArticleId)

`Buffer.from(url).toString("base64").substring(0, 32)`: base64-encode the
URL's UTF-8 bytes and keep the first 32 characters. -/

/-- The base64 alphabet character at index `n` (for `n < 64`). -/
def base64Char (n : Nat) : Char :=
  if n < 26 then Char.ofNat (65 + n)
  else if n < 52 then Char.ofNat (97 + (n - 26))
  else if n < 62 then Char.ofNat (48 + (n - 52))
  else if n = 62 then '+'
  else '/'

/-- Index of a base64 alphabet character (inverse of `base64Char`). -/
def base64Index (c : Char) : Nat :=
  let n := c.toNat
  if 65 ≤ n ∧ n ≤ 90 then n - 65
  else if 97 ≤ n ∧ n ≤ 122 then n - 97 + 26
  else if 48 ≤ n ∧ n ≤ 57 then n - 48 + 52
  else if c = '+' then 62
  else 63

/-- Standard base64 encoding of a byte list, with `=` padding, as produced
by `Buffer.toString("base64")`. -/
def base64Encode : List Nat → List Char
  | [] => []
  | [b1] => [base64Char (b1 / 4), base64Char (b1 % 4 * 16), '=', '=']
  | [b1, b2] =>
    [base64Char (b1 / 4), base64Char (b1 % 4 * 16 + b2 / 16),
     base64Char (b2 % 16 * 4), '=']
  | b1 :: b2 :: b3 :: rest =>
    base64Char (b1 / 4) :: base64Char (b1 % 4 * 16 + b2 / 16) ::
    base64Char (b2 % 16 * 4 + b3 / 64) :: base64Char (b3 % 64) ::
    base64Encode rest

/-- Base64 decoding (inverse of `base64Encode` on well-formed input). -/
def base64Decode : List Char → List Nat
  | c1 :: c2 :: c3 :: c4 :: rest =>
    if c3 = '=' then [base64Index c1 * 4 + base64Index c2 / 16]
    else if c4 = '=' then
      [base64Index c1 * 4 + base64Index c2 / 16,
       base64Index c2 % 16 * 16 + base64Index c3 / 4]
    else
      (base64Index c1 * 4 + base64Index c2 / 16) ::
      (base64Index c2 % 16 * 16 + base64Index c3 / 4) ::
      (base64Index c3 % 4 * 64 + base64Index c4) ::
      base64Decode rest
  | _ => []

/-- UTF-8 bytes of an ASCII string (used to build concrete URLs). -/
def strBytes (s : String) : List Nat := s.toList.map Char.toNat

/-- `generateArticleId(url)`: first 32 base64 characters of the URL bytes. -/
def generateArticleId (url : List Nat) : String :=
  ⟨(base64Encode url).take 32⟩

/-! ## Article store (src/models/Article.js) -/

structure ArticleData where
  url : List Nat
  title : String
  description : String
  content : String
  image : String
  publishedAt : String
  source : String
deriving DecidableEq

structure ArticleMetadata where
  id : String
  url : List Nat
  title : String
  description : String
  content : String
  image : String
  publishedAt : String
  source : String
  cachedAt : Int
deriving DecidableEq

/-- A favorites entry: a snapshot of the metadata when present (a minimal
stub otherwise) plus the favoriting timestamp. -/
structure FavoriteEntry where
  data : Option ArticleMetadata
  favoritedAt : Int
deriving DecidableEq

structure ArticleState where
  readArticles : List (Nat × List String)
  favoriteArticles : List (Nat × List (String × FavoriteEntry))
  articleMetadata : List (String × ArticleMetadata)
deriving DecidableEq

structure UserStats where
  totalRead : Nat
  totalFavorites : Nat
  totalArticlesTracked : Nat
deriving DecidableEq

namespace Article

/-- The metadata record stored for an article payload at time `now`. -/
def mkMetadata (a : ArticleData) (articleId : String) (now : Int) : ArticleMetadata :=
  ⟨articleId, a.url, a.title, a.description, a.content, a.image,
   a.publishedAt, a.source, now⟩

/-- `storeArticleMetadata(article)` at time `now`: store the metadata only
when absent; return the id either way. -/
def storeArticleMetadata (st : ArticleState) (a : ArticleData) (now : Int) :
    ArticleState × String :=
  let articleId := generateArticleId a.url
  match alookup st.articleMetadata articleId with
  | some _ => (st, articleId)
  | none =>
    ({ st with articleMetadata :=
        (aset st.articleMetadata articleId (mkMetadata a articleId now)) },
     articleId)

/-- `markAsReadById(userId, articleId)` at time `now`: add the id to the
user's read set (initializing it when absent) without touching metadata. -/
def markAsReadById (st : ArticleState) (u : Nat) (articleId : String) (now : Int) :
    ArticleState × String × Int :=
  let cur := (alookup st.readArticles u).getD []
  let newSet := if articleId ∈ cur then cur else cur ++ [articleId]
  ({ st with readArticles := aset st.readArticles u newSet }, articleId, now)

/-- `isRead(userId, articleId)`. -/
def isRead (st : ArticleState) (u : Nat) (articleId : String) : Bool :=
  match alookup st.readArticles u with
  | none => false
  | some s => decide (articleId ∈ s)

/-- `getReadArticles(userId)`: read ids joined with metadata; ids with no
metadata are dropped. -/
def getReadArticles (st : ArticleState) (u : Nat) : List ArticleMetadata :=
  ((alookup st.readArticles u).getD []).filterMap
    (fun articleId => alookup st.articleMetadata articleId)

/-- `isFavorite(userId, articleId)`. -/
def isFavorite (st : ArticleState) (u : Nat) (articleId : String) : Bool :=
  match alookup st.favoriteArticles u with
  | none => false
  | some fm => (alookup fm articleId).isSome

/-- `removeFavorite(userId, articleId)`: delete from the user's favorites
map; report whether an entry existed. -/
def removeFavorite (st : ArticleState) (u : Nat) (articleId : String) :
    Bool × ArticleState :=
  match alookup st.favoriteArticles u with
  | none => (false, st)
  | some fm =>
    let r := adelete fm articleId
    (r.1, { st with favoriteArticles := aset st.favoriteArticles u r.2 })

/-- `getUserStats(userId)`. -/
def getUserStats (st : ArticleState) (u : Nat) : UserStats :=
  ⟨((alookup st.readArticles u).getD []).length,
   ((alookup st.favoriteArticles u).getD []).length,
   st.articleMetadata.length⟩

/-- All ids appearing in some user's favorites map, in scan order. -/
def allFavIds (st : ArticleState) : List String :=
  (st.favoriteArticles.map (fun q => q.2.map Prod.fst)).flatten

/-- The inner loop of the favorites scan in `clearOldMetadata`: remove each
favorited id from the pending-deletion list (`indexOf`/`splice`). -/
def favKeyErase (td : List String) (fm : List (String × FavoriteEntry)) :
    List String :=
  fm.foldl (fun td' p => td'.erase p.1) td

/-- `clearOldMetadata(maxAge)` at time `now`: collect ids older than
`maxAge`, spare those in any user's favorites, delete the rest, and return
the number deleted. -/
def clearOldMetadata (st : ArticleState) (now maxAge : Int) :
    ArticleState × Nat :=
  let toDelete0 :=
    (st.articleMetadata.filter (fun p => decide (now - p.2.cachedAt > maxAge))).map
      Prod.fst
  let toDelete := st.favoriteArticles.foldl (fun td q => favKeyErase td q.2) toDelete0
  ({ st with articleMetadata :=
      toDelete.foldl (fun m articleId => (adelete m articleId).2) st.articleMetadata },
   toDelete.length)

end Article

/-- The `removeFavorite` controller: 404 when the model reports no entry,
200 otherwise (src/controllers, removeFavorite). -/
def removeFavoriteController (st : ArticleState) (u : Nat) (articleId : String) :
    Nat × ArticleState :=
  let r := Article.removeFavorite st u articleId
  if r.1 then (200, r.2) else (404, r.2)

/-! ## News service (src/services/newsService.js) -/

structure GArticle where
  url : String
  title : String
deriving DecidableEq

structure NewsResult where
  totalArticles : Nat
  articles : List GArticle
deriving DecidableEq

inductive NewsError where
  | apiError (status : Int)
  | networkError
  | other
deriving DecidableEq

/-- One step of the merge loop in `getPersonalizedNews`: push the article
unless its URL was already seen. -/
def mergeStep (acc : List GArticle × List String) (a : GArticle) :
    List GArticle × List String :=
  if a.url ∈ acc.2 then acc else (acc.1 ++ [a], acc.2 ++ [a.url])

/-- The combine-and-deduplicate loop of `getPersonalizedNews` over the
per-preference result lists. -/
def mergeArticles (results : List (List GArticle)) : List GArticle :=
  (results.foldl (fun acc r => r.foldl mergeStep acc) ([], [])).1

/-- `getPersonalizedNews(preferences)` given the per-preference search
results `fetch`: merge, deduplicate by URL, truncate to 10. -/
def getPersonalizedNews (fetch : String → List GArticle) (prefs : List String) :
    NewsResult :=
  if prefs.isEmpty then ⟨0, []⟩
  else
    let results := prefs.map fetch
    let allArticles := mergeArticles results
    let limited := allArticles.take 10
    ⟨limited.length, limited⟩

/-- The `.catch` wrapper around each per-preference `searchNews` call: a
failed fetch contributes an empty article list. -/
def catchFetch (fetch : String → Except NewsError (List GArticle)) (p : String) :
    List GArticle :=
  match fetch p with
  | .ok r => r
  | .error _ => []

/-- `getPersonalizedNews` with fallible per-preference fetches, as in the
source: each fetch is individually guarded by `.catch`. -/
def getPersonalizedNewsE (fetch : String → Except NewsError (List GArticle))
    (prefs : List String) : Except NewsError NewsResult :=
  if prefs.isEmpty then .ok ⟨0, []⟩
  else
    let results := prefs.map (catchFetch fetch)
    let allArticles := mergeArticles results
    let limited := allArticles.take 10
    .ok ⟨limited.length, limited⟩

/-- Modelled from the spec: "deduplicate strictly by article URL (first
occurrence wins)" — keep each article whose URL has not occurred earlier. -/
def dedupByUrl : List GArticle → List GArticle
  | [] => []
  | a :: rest => a :: dedupByUrl (rest.filter (fun b => decide (b.url ≠ a.url)))
termination_by l => l.length
decreasing_by
  simp only [List.length_cons]
  exact Nat.lt_succ_of_le (List.length_filter_le _ _)

/-- Deduplication relative to an already-seen URL list (proof helper
mirroring the seen-set of the merge loop). -/
def dedupAvoid (seen : List String) : List GArticle → List GArticle
  | [] => []
  | a :: rest =>
    if a.url ∈ seen then dedupAvoid seen rest
    else a :: dedupAvoid (seen ++ [a.url]) rest

/-! ## Background scheduler (BackgroundJobService) -/

structure SchedState where
  cacheUpdate : Option Nat
  cacheCleanup : Option Nat
  articleCleanup : Option Nat
  isRunning : Bool
deriving DecidableEq

namespace Sched

/-- The constructor state: no timers, not running. -/
def initial : SchedState := ⟨none, none, none, false⟩

/-- `start()`: no-op when running; otherwise install all three interval
timers and mark running. -/
def start (s : SchedState) : SchedState :=
  if s.isRunning then s else ⟨some 0, some 1, some 2, true⟩

/-- `stop()`: no-op when stopped; otherwise clear every timer and mark
stopped. -/
def stop (s : SchedState) : SchedState :=
  if s.isRunning then ⟨none, none, none, false⟩ else s

inductive Op where
  | start
  | stop
deriving DecidableEq

def applyOp (s : SchedState) : Op → SchedState
  | .start => start s
  | .stop => stop s

/-- The state reached from the constructor state by a sequence of
`start`/`stop` calls. -/
def runOps (ops : List Op) : SchedState := ops.foldl applyOp initial

end Sched

/-! ## Concrete fixtures used by witnesses -/

/-- A concrete per-preference fetch: topic "a" has one article, every other
topic another. -/
def fetchFixture : String → List GArticle :=
  fun p => if p = "a" then [⟨"u1", "t1"⟩] else [⟨"u2", "t2"⟩]

/-- A concrete fallible fetch: topic "a" succeeds, every other topic fails. -/
def fetchFixtureE : String → Except NewsError (List GArticle) :=
  fun p => if p = "a" then .ok [⟨"ua", "ta"⟩] else .error .networkError

/-- The empty article store. -/
def stEmpty : ArticleState := ⟨[], [], []⟩

/-- A store where user 1 favorited article "x". -/
def stFav : ArticleState := ⟨[], [(1, [("x", ⟨none, 5⟩)])], []⟩

/-- A concrete metadata record with the given id and caching time. -/
def mkMetaFixture (articleId : String) (cachedAt : Int) : ArticleMetadata :=
  ⟨articleId, [], "t", "d", "c", "i", "p", "s", cachedAt⟩

/-- A store with one old favorited metadata entry, one old unreferenced
entry and one fresh entry; user 1 read "oldPlain", user 2 favorited
"oldFav". -/
def stSweep : ArticleState :=
  ⟨[(1, ["oldPlain"])],
   [(2, [("oldFav", ⟨some (mkMetaFixture "oldFav" 0), 1⟩)])],
   [("oldFav", mkMetaFixture "oldFav" 0),
    ("oldPlain", mkMetaFixture "oldPlain" 0),
    ("fresh", mkMetaFixture "fresh" 90)]⟩

/-- A concrete article payload. -/
def articleFixture : ArticleData :=
  ⟨strBytes "https://example.com/n1", "t1", "d1", "c1", "i1", "p1", "s1"⟩

/-! ## Association-list lemmas -/

section AListLemmas

variable {α β : Type} [DecidableEq α]

theorem alookup_eq_none_iff (l : List (α × β)) (k : α) :
    alookup l k = none ↔ k ∉ l.map Prod.fst := by
  induction l with
  | nil => simp [alookup]
  | cons p t ih =>
    by_cases h : p.1 = k
    · simp [alookup, h]
    · have hne : k ≠ p.1 := fun he => h he.symm
      simp [alookup, h, ih, hne]

theorem alookup_isSome_iff (l : List (α × β)) (k : α) :
    (alookup l k).isSome = true ↔ k ∈ l.map Prod.fst := by
  rw [Option.isSome_iff_ne_none, ne_eq, alookup_eq_none_iff, not_not]

theorem mem_of_alookup_eq_some {l : List (α × β)} {k : α} {v : β}
    (h : alookup l k = some v) : (k, v) ∈ l := by
  induction l with
  | nil => simp [alookup] at h
  | cons p t ih =>
    obtain ⟨p1, p2⟩ := p
    by_cases hp : p1 = k
    · subst hp
      simp only [alookup, if_true, Option.some.injEq] at h
      subst h
      exact List.mem_cons_self _ _
    · simp only [alookup, hp, if_false] at h
      exact List.mem_cons_of_mem _ (ih h)

theorem alookup_of_mem_nodup {l : List (α × β)} {k : α} {v : β}
    (hn : (l.map Prod.fst).Nodup) (hm : (k, v) ∈ l) : alookup l k = some v := by
  induction l with
  | nil => simp at hm
  | cons p t ih =>
    simp only [List.map_cons, List.nodup_cons] at hn
    rcases List.mem_cons.1 hm with h | h
    · rw [← h]
      simp [alookup]
    · have hk : p.1 ≠ k := by
        intro he
        exact hn.1 (he ▸ (List.mem_map_of_mem Prod.fst h))
      simp only [alookup, hk, if_false]
      exact ih hn.2 h

theorem alookup_aset (l : List (α × β)) (k : α) (v : β) (k' : α) :
    alookup (aset l k v) k' = if k = k' then some v else alookup l k' := by
  induction l with
  | nil => simp [aset, alookup]
  | cons p t ih =>
    obtain ⟨k₀, v₀⟩ := p
    by_cases h : k₀ = k
    · subst h
      by_cases hk : k₀ = k'
      · simp [aset, alookup, hk]
      · simp [aset, alookup, hk]
    · by_cases hk0 : k₀ = k'
      · subst hk0
        have : ¬ k = k₀ := fun he => h he.symm
        simp [aset, alookup, h, this]
      · simp [aset, alookup, h, hk0, ih]

theorem aset_eq_self {l : List (α × β)} {k : α} {v : β}
    (h : alookup l k = some v) : aset l k v = l := by
  induction l with
  | nil => simp [alookup] at h
  | cons p t ih =>
    obtain ⟨k₀, v₀⟩ := p
    by_cases hp : k₀ = k
    · subst hp
      simp only [alookup, if_true, Option.some.injEq] at h
      subst h
      simp [aset]
    · simp only [alookup, hp, if_false] at h
      simp [aset, hp, ih h]

theorem map_fst_aset (l : List (α × β)) (k : α) (v : β) :
    (aset l k v).map Prod.fst =
      if k ∈ l.map Prod.fst then l.map Prod.fst else l.map Prod.fst ++ [k] := by
  induction l with
  | nil => simp [aset]
  | cons p t ih =>
    obtain ⟨k₀, v₀⟩ := p
    by_cases h : k₀ = k
    · subst h
      simp [aset]
    · have hne : ¬ k = k₀ := fun he => h he.symm
      by_cases hm : k ∈ t.map Prod.fst
      · simp [aset, h, hm, hne, ih]
      · simp [aset, h, hm, hne, ih]

theorem nodup_keys_aset {l : List (α × β)} (k : α) (v : β)
    (hn : (l.map Prod.fst).Nodup) : ((aset l k v).map Prod.fst).Nodup := by
  rw [map_fst_aset]
  by_cases hm : k ∈ l.map Prod.fst
  · simpa [hm]
  · rw [if_neg hm]
    exact List.Nodup.append hn (List.nodup_singleton k)
      (by simpa [List.disjoint_singleton] using hm)

theorem adelete_fst (l : List (α × β)) (k : α) :
    (adelete l k).1 = (alookup l k).isSome := by
  induction l with
  | nil => simp [adelete, alookup]
  | cons p t ih =>
    by_cases h : p.1 = k
    · simp [adelete, alookup, h]
    · simp [adelete, alookup, h, ih]

theorem adelete_of_alookup_none {l : List (α × β)} {k : α}
    (h : alookup l k = none) : adelete l k = (false, l) := by
  induction l with
  | nil => simp [adelete]
  | cons p t ih =>
    by_cases hp : p.1 = k
    · simp [alookup, hp] at h
    · simp only [alookup, hp, if_false] at h
      simp [adelete, hp, ih h]

theorem alookup_adelete_ne (l : List (α × β)) (k k' : α) (h : k' ≠ k) :
    alookup (adelete l k).2 k' = alookup l k' := by
  have h3 : ¬ k = k' := fun he => h he.symm
  induction l with
  | nil => simp [adelete]
  | cons p t ih =>
    obtain ⟨k₀, v₀⟩ := p
    by_cases hp : k₀ = k
    · subst hp
      simp [adelete, alookup, h3]
    · by_cases hp' : k₀ = k'
      · subst hp'
        simp [adelete, alookup, hp]
      · simp [adelete, alookup, hp, hp', ih]

theorem adelete_snd_eq_filter {l : List (α × β)} (k : α)
    (hn : (l.map Prod.fst).Nodup) :
    (adelete l k).2 = l.filter (fun p => decide (p.1 ≠ k)) := by
  induction l with
  | nil => simp [adelete]
  | cons p t ih =>
    simp only [List.map_cons, List.nodup_cons] at hn
    by_cases hp : p.1 = k
    · have hflt : List.filter (fun q : α × β => !decide (q.1 = k)) t = t := by
        apply List.filter_eq_self.mpr
        intro q hq
        simp only [Bool.not_eq_true', decide_eq_false_iff_not]
        intro he
        exact hn.1 (hp ▸ he ▸ (List.mem_map_of_mem Prod.fst hq))
      simp [adelete, hp, hflt]
    · simp [adelete, hp, ih hn.2]

theorem alookup_filter_keys {l : List (α × β)} (q : α × β → Bool) (k : α)
    (hn : (l.map Prod.fst).Nodup) :
    alookup (l.filter q) k =
      match alookup l k with
      | none => none
      | some v => if q (k, v) then some v else none := by
  induction l with
  | nil => simp [alookup]
  | cons p t ih =>
    obtain ⟨k₀, v₀⟩ := p
    simp only [List.map_cons, List.nodup_cons] at hn
    by_cases hp : k₀ = k
    · subst hp
      by_cases hq : q (k₀, v₀)
      · simp [List.filter_cons, hq, alookup]
      · have : alookup (t.filter q) k₀ = none := by
          rw [alookup_eq_none_iff]
          intro hm
          exact hn.1 ((List.Sublist.map Prod.fst (List.filter_sublist t)).mem hm)
        simp [List.filter_cons, hq, alookup, this]
    · by_cases hq : q (k₀, v₀)
      · simp [List.filter_cons, hq, alookup, hp, ih hn.2]
      · simp [List.filter_cons, hq, alookup, hp, ih hn.2]

theorem foldl_erase_eq_filter (ks : List α) :
    ∀ (td : List α), td.Nodup →
      ks.foldl (fun a k => a.erase k) td = td.filter (fun x => decide (x ∉ ks)) := by
  induction ks with
  | nil => intro td _; simp
  | cons k ks ih =>
    intro td hn
    have herase : td.erase k = td.filter (fun x => x != k) :=
      List.Nodup.erase_eq_filter hn k
    have hn' : (td.erase k).Nodup := List.Nodup.erase k hn
    calc (k :: ks).foldl (fun a k => a.erase k) td
        = ks.foldl (fun a k => a.erase k) (td.erase k) := by simp
      _ = (td.erase k).filter (fun x => decide (x ∉ ks)) := ih _ hn'
      _ = (td.filter (fun x => x != k)).filter (fun x => decide (x ∉ ks)) := by
          rw [herase]
      _ = td.filter (fun x => decide (x ∉ k :: ks)) := by
          rw [List.filter_filter]
          apply List.filter_congr
          intro x _
          simp only [List.mem_cons, bne_iff_ne, ne_eq, decide_not,
            Bool.and_eq_true, decide_eq_true_eq, Bool.not_eq_true',
            decide_eq_false_iff_not, not_or]
          by_cases h1 : x = k <;> by_cases h2 : x ∈ ks <;> simp [h1, h2]

theorem foldl_adelete_eq_filter (ids : List α) :
    ∀ (m : List (α × β)), (m.map Prod.fst).Nodup →
      ids.foldl (fun m' i => (adelete m' i).2) m =
        m.filter (fun p => decide (p.1 ∉ ids)) := by
  induction ids with
  | nil => intro m _; simp
  | cons i ids ih =>
    intro m hn
    have hstep : (adelete m i).2 = m.filter (fun p => decide (p.1 ≠ i)) :=
      adelete_snd_eq_filter i hn
    have hn' : (((adelete m i).2).map Prod.fst).Nodup := by
      rw [hstep]
      exact ((List.filter_sublist m).map Prod.fst).nodup hn
    calc (i :: ids).foldl (fun m' i' => (adelete m' i').2) m
        = ids.foldl (fun m' i' => (adelete m' i').2) (adelete m i).2 := by simp
      _ = ((adelete m i).2).filter (fun p => decide (p.1 ∉ ids)) := ih _ hn'
      _ = (m.filter (fun p => decide (p.1 ≠ i))).filter
            (fun p => decide (p.1 ∉ ids)) := by rw [hstep]
      _ = m.filter (fun p => decide (p.1 ∉ i :: ids)) := by
          rw [List.filter_filter]
          apply List.filter_congr
          intro p _
          simp only [List.mem_cons, ne_eq, decide_not, Bool.and_eq_true,
            decide_eq_true_eq, Bool.not_eq_true', decide_eq_false_iff_not, not_or]
          by_cases h1 : p.1 = i <;> by_cases h2 : p.1 ∈ ids <;> simp [h1, h2]

theorem alookup_adelete_self {l : List (α × β)} (k : α)
    (hn : (l.map Prod.fst).Nodup) : alookup (adelete l k).2 k = none := by
  rw [adelete_snd_eq_filter k hn, alookup_filter_keys _ _ hn]
  cases alookup l k with
  | none => rfl
  | some v => simp

theorem alookup_perm {l₁ l₂ : List (α × β)} (hp : l₁.Perm l₂)
    (hn : (l₁.map Prod.fst).Nodup) (k : α) : alookup l₁ k = alookup l₂ k := by
  have hn₂ : (l₂.map Prod.fst).Nodup := ((hp.map Prod.fst).nodup_iff).mp hn
  cases hv : alookup l₁ k with
  | none =>
    symm
    rw [alookup_eq_none_iff] at hv ⊢
    exact fun hm => hv ((hp.map Prod.fst).mem_iff.mpr hm)
  | some v =>
    exact (alookup_of_mem_nodup hn₂ (hp.mem_iff.mp (mem_of_alookup_eq_some hv))).symm

end AListLemmas

/-- Dropping an element that maps to `none` makes `filterMap` strictly
shorter than the source list. -/
theorem length_filterMap_lt_of_mem_none {γ δ : Type} {f : γ → Option δ}
    {l : List γ} {a : γ} (ha : a ∈ l) (hf : f a = none) :
    (l.filterMap f).length < l.length := by
  induction l with
  | nil => simp at ha
  | cons x xs ih =>
    rcases List.mem_cons.1 ha with h | h
    · subst h
      rw [List.filterMap_cons, hf]
      exact Nat.lt_succ_of_le (List.length_filterMap_le f xs)
    · rw [List.filterMap_cons]
      cases f x with
      | none => exact Nat.lt_succ_of_lt (ih h)
      | some b => simpa using Nat.succ_lt_succ (ih h)

/-! ## Claim C2: cache TTL visibility -/

/-- C2 (counterexample): the claim says `get` returns the value iff
`now < expiresAt`. After `set` at time 0 with ttl 100 (`expiresAt = 100`),
`get` at time 100 still returns the value although `100 < 100` is false:
the code only expires on `now > expiresAt`. -/
theorem C2_boundary_counterexample :
    (CacheService.get (CacheService.set (⟨[]⟩ : CacheState Nat) "k" 7 100 0)
      "k" 100).1 = some 7
    ∧ ¬ ((100 : Int) < 0 + 100) := by
  constructor
  · rfl
  · decide

/-- C2 (amended): after `set(k, v, ttl)` at time `t0` with no intervening
operation on `k`, `get(k)` at time `now` returns `v` iff `now ≤ t0 + ttl`
(miss exactly when `now > t0 + ttl`), and a `get` that finds the entry
expired removes it from the cache, leaving other keys untouched. -/
theorem C2_cache_ttl {α : Type} (c0 : CacheState α) (k : String) (v : α)
    (ttl t0 now : Int) (hn : (c0.cache.map Prod.fst).Nodup) :
    (now ≤ t0 + ttl →
      CacheService.get (CacheService.set c0 k v ttl t0) k now
        = (some v, CacheService.set c0 k v ttl t0))
    ∧ (t0 + ttl < now →
      (CacheService.get (CacheService.set c0 k v ttl t0) k now).1 = none
      ∧ alookup (CacheService.get (CacheService.set c0 k v ttl t0) k now).2.cache k
          = none
      ∧ ∀ k', k' ≠ k →
          alookup (CacheService.get (CacheService.set c0 k v ttl t0) k now).2.cache k'
            = alookup (CacheService.set c0 k v ttl t0).cache k') := by
  have hlk : alookup (CacheService.set c0 k v ttl t0).cache k
      = some ⟨v, t0 + ttl, t0⟩ := by
    simp [CacheService.set, alookup_aset]
  have hnst : ((CacheService.set c0 k v ttl t0).cache.map Prod.fst).Nodup :=
    nodup_keys_aset k _ hn
  constructor
  · intro h
    simp only [CacheService.get, hlk]
    rw [if_neg (by exact not_lt.mpr h)]
  · intro h
    simp only [CacheService.get, hlk]
    rw [if_pos (by exact h)]
    refine ⟨rfl, alookup_adelete_self k hnst, ?_⟩
    intro k' hk'
    exact alookup_adelete_ne _ k k' hk'

/-- C2 (witness): the amended theorem at a concrete instance — value 7,
ttl 100, set at 0; a read at 50 hits, a read at 101 misses and deletes. -/
theorem C2_cache_ttl_witness :
    ((50 : Int) ≤ 0 + 100
      → CacheService.get (CacheService.set (⟨[]⟩ : CacheState Nat) "k" 7 100 0) "k" 50
          = (some 7, CacheService.set (⟨[]⟩ : CacheState Nat) "k" 7 100 0))
    ∧ ((0 : Int) + 100 < 101
      → (CacheService.get (CacheService.set (⟨[]⟩ : CacheState Nat) "k" 7 100 0)
          "k" 101).1 = none) := by
  have h50 := (C2_cache_ttl (⟨[]⟩ : CacheState Nat) "k" 7 100 0 50 (by decide)).1
  have h101 := (C2_cache_ttl (⟨[]⟩ : CacheState Nat) "k" 7 100 0 101 (by decide)).2
  exact ⟨fun h => h50 h, fun h => (h101 h).1⟩

/-! ## Claim C7: cache key determinism -/

/-- C7: `generateKey` yields the identical key for any two parameter
mappings holding exactly the same name-value pairs, whatever the insertion
order, because parameter names are sorted before concatenation. -/
theorem C7_generateKey_order_independent (pfx : String)
    (p1 p2 : List (String × String)) (hperm : p1.Perm p2)
    (hn : (p1.map Prod.fst).Nodup) :
    CacheService.generateKey pfx p1 = CacheService.generateKey pfx p2 := by
  have hkeys : List.insertionSort (fun a b => a ≤ b) (p1.map Prod.fst)
      = List.insertionSort (fun a b => a ≤ b) (p2.map Prod.fst) := by
    haveI inst : IsAntisymm String (fun a b : String => a ≤ b) :=
      ⟨fun a b h1 h2 => le_antisymm h1 h2⟩
    exact @List.eq_of_perm_of_sorted String (fun a b => a ≤ b) inst _ _
      ((List.perm_insertionSort _ _).trans
        ((hperm.map Prod.fst).trans (List.perm_insertionSort _ _).symm))
      (List.sorted_insertionSort _ _) (List.sorted_insertionSort _ _)
  have hmap : (List.insertionSort (fun a b => a ≤ b) (p2.map Prod.fst)).map
        (fun k => k ++ ":" ++ ((alookup p1 k).getD ""))
      = (List.insertionSort (fun a b => a ≤ b) (p2.map Prod.fst)).map
        (fun k => k ++ ":" ++ ((alookup p2 k).getD "")) := by
    apply List.map_congr_left
    intro k _
    rw [alookup_perm hperm hn k]
  simp only [CacheService.generateKey]
  rw [hkeys, hmap]

/-- C7 (witness): the same two bindings inserted in either order produce
the same key. -/
theorem C7_generateKey_witness :
    CacheService.generateKey "search" [("query", "ai"), ("lang", "en")]
      = CacheService.generateKey "search" [("lang", "en"), ("query", "ai")] :=
  C7_generateKey_order_independent "search" _ _ (by decide) (by decide)

/-! ## Claim C8: scheduler state machine -/

/-- Every state reachable by `start`/`stop` calls is the stopped state (no
timers) or the running state (all three timers). -/
theorem sched_foldl_inv (ops : List Sched.Op) :
    ∀ s : SchedState,
      (s = Sched.initial ∨ s = ⟨some 0, some 1, some 2, true⟩) →
      (ops.foldl Sched.applyOp s = Sched.initial
        ∨ ops.foldl Sched.applyOp s = ⟨some 0, some 1, some 2, true⟩) := by
  induction ops with
  | nil => intro s hs; simpa using hs
  | cons op ops ih =>
    intro s hs
    rw [List.foldl_cons]
    apply ih
    rcases hs with h | h <;> subst h <;> cases op <;>
      first
        | exact Or.inl rfl
        | exact Or.inr rfl

/-- C8: in every reachable scheduler state either all three timers are
installed or none are (each timer's presence equals the running flag);
`start` from running and `stop` from stopped are no-ops; `start` from
stopped installs all three timers and `stop` from running clears them. -/
theorem C8_scheduler_state_machine (ops : List Sched.Op) :
    ((Sched.runOps ops).cacheUpdate.isSome = (Sched.runOps ops).isRunning
     ∧ (Sched.runOps ops).cacheCleanup.isSome = (Sched.runOps ops).isRunning
     ∧ (Sched.runOps ops).articleCleanup.isSome = (Sched.runOps ops).isRunning)
    ∧ ((Sched.runOps ops).isRunning = true →
        Sched.start (Sched.runOps ops) = Sched.runOps ops)
    ∧ ((Sched.runOps ops).isRunning = false →
        Sched.stop (Sched.runOps ops) = Sched.runOps ops)
    ∧ ((Sched.runOps ops).isRunning = false →
        Sched.start (Sched.runOps ops) = ⟨some 0, some 1, some 2, true⟩)
    ∧ ((Sched.runOps ops).isRunning = true →
        Sched.stop (Sched.runOps ops) = ⟨none, none, none, false⟩) := by
  have hinv := sched_foldl_inv ops Sched.initial (Or.inl rfl)
  simp only [Sched.runOps]
  rcases hinv with h | h <;> rw [h] <;> decide

/-- C8 (witness): after one `start` call the scheduler is running, a second
`start` is a no-op, and `stop` clears all three timers. -/
theorem C8_scheduler_witness :
    (Sched.runOps [Sched.Op.start]).isRunning = true
    ∧ Sched.start (Sched.runOps [Sched.Op.start]) = Sched.runOps [Sched.Op.start]
    ∧ Sched.stop (Sched.runOps [Sched.Op.start]) = ⟨none, none, none, false⟩ := by
  have h := C8_scheduler_state_machine [Sched.Op.start]
  exact ⟨by decide, h.2.1 (by decide), h.2.2.2.2 (by decide)⟩

/-! ## Claim C6: metadata recording is first-write-wins and idempotent -/

/-- Unfolding `storeArticleMetadata` when the id is already present. -/
theorem storeArticleMetadata_of_isSome {st : ArticleState} {a : ArticleData}
    {now : Int}
    (h : (alookup st.articleMetadata (generateArticleId a.url)).isSome = true) :
    Article.storeArticleMetadata st a now = (st, generateArticleId a.url) := by
  cases hl : alookup st.articleMetadata (generateArticleId a.url) with
  | none =>
    rw [hl] at h
    simp at h
  | some m => simp [Article.storeArticleMetadata, hl]

/-- Unfolding `storeArticleMetadata` when the id is absent. -/
theorem storeArticleMetadata_of_none {st : ArticleState} {a : ArticleData}
    {now : Int}
    (h : alookup st.articleMetadata (generateArticleId a.url) = none) :
    Article.storeArticleMetadata st a now =
      ({ st with articleMetadata :=
          (aset st.articleMetadata (generateArticleId a.url)
            (Article.mkMetadata a (generateArticleId a.url) now)) },
       generateArticleId a.url) := by
  simp [Article.storeArticleMetadata, h]

/-- C6: `storeArticleMetadata` returns the id derived from the article's
URL; it stores metadata when the id is absent, leaves the metadata map
completely unchanged when the id is present, never touches read sets or
favorites, and a second call with any article having the same URL changes
nothing in the metadata map. -/
theorem C6_storeArticleMetadata_first_write_wins (st : ArticleState)
    (a : ArticleData) (now : Int) :
    (Article.storeArticleMetadata st a now).2 = generateArticleId a.url
    ∧ (Article.storeArticleMetadata st a now).1.readArticles = st.readArticles
    ∧ (Article.storeArticleMetadata st a now).1.favoriteArticles
        = st.favoriteArticles
    ∧ (alookup st.articleMetadata (generateArticleId a.url) = none →
        (Article.storeArticleMetadata st a now).1.articleMetadata
          = aset st.articleMetadata (generateArticleId a.url)
              (Article.mkMetadata a (generateArticleId a.url) now))
    ∧ ((alookup st.articleMetadata (generateArticleId a.url)).isSome = true →
        (Article.storeArticleMetadata st a now).1 = st)
    ∧ (∀ a' now', a'.url = a.url →
        (Article.storeArticleMetadata (Article.storeArticleMetadata st a now).1
            a' now').1.articleMetadata
          = (Article.storeArticleMetadata st a now).1.articleMetadata) := by
  cases h : alookup st.articleMetadata (generateArticleId a.url) with
  | some m =>
    have hs : Article.storeArticleMetadata st a now = (st, generateArticleId a.url) :=
      storeArticleMetadata_of_isSome (by rw [h]; rfl)
    refine ⟨by rw [hs], by rw [hs], by rw [hs], ?_, ?_, ?_⟩
    · intro h'
      exact Option.noConfusion h'
    · intro _
      rw [hs]
    · intro a' now' hurl
      have hid : generateArticleId a'.url = generateArticleId a.url := by rw [hurl]
      rw [hs]
      have hs' : Article.storeArticleMetadata st a' now' = (st, generateArticleId a'.url) :=
        storeArticleMetadata_of_isSome (by rw [hid, h]; rfl)
      rw [hs']
  | none =>
    have hs : Article.storeArticleMetadata st a now =
        ({ st with articleMetadata :=
            (aset st.articleMetadata (generateArticleId a.url)
              (Article.mkMetadata a (generateArticleId a.url) now)) },
         generateArticleId a.url) :=
      storeArticleMetadata_of_none h
    refine ⟨by rw [hs], by rw [hs], by rw [hs], ?_, ?_, ?_⟩
    · intro _
      rw [hs]
    · intro h'
      simp at h'
    · intro a' now' hurl
      have hid : generateArticleId a'.url = generateArticleId a.url := by rw [hurl]
      rw [hs]
      have hs' : Article.storeArticleMetadata
          ({ st with articleMetadata :=
              (aset st.articleMetadata (generateArticleId a.url)
                (Article.mkMetadata a (generateArticleId a.url) now)) })
          a' now' =
          (({ st with articleMetadata :=
              (aset st.articleMetadata (generateArticleId a.url)
                (Article.mkMetadata a (generateArticleId a.url) now)) }),
           generateArticleId a'.url) := by
        apply storeArticleMetadata_of_isSome
        show (alookup (aset st.articleMetadata (generateArticleId a.url)
          (Article.mkMetadata a (generateArticleId a.url) now))
            (generateArticleId a'.url)).isSome = true
        rw [hid, alookup_aset]
        simp
      rw [hs']

/-- C6 (witness): storing the same concrete article twice into the empty
store leaves the metadata map unchanged after the second call, and the
returned id is the URL-derived id. -/
theorem C6_storeArticleMetadata_witness :
    (Article.storeArticleMetadata
        (Article.storeArticleMetadata stEmpty articleFixture 3).1
        articleFixture 9).1.articleMetadata
      = (Article.storeArticleMetadata stEmpty articleFixture 3).1.articleMetadata
    ∧ (Article.storeArticleMetadata stEmpty articleFixture 3).2
        = generateArticleId articleFixture.url := by
  have h := C6_storeArticleMetadata_first_write_wins stEmpty articleFixture 3
  exact ⟨h.2.2.2.2.2 articleFixture 9 rfl, h.1⟩

/-! ## Claim C9: removeFavorite result and 404 -/

/-- C9: `removeFavorite` returns true iff the id was in the user's
favorites map beforehand; on false the store is unchanged; on true only
that one entry of that user's favorites is removed (read sets, metadata,
other users and other ids untouched); the controller surfaces false as a
404 response. -/
theorem C9_removeFavorite_spec (st : ArticleState) (u : Nat)
    (articleId : String) :
    (Article.removeFavorite st u articleId).1 = Article.isFavorite st u articleId
    ∧ ((Article.removeFavorite st u articleId).1 = false →
        (Article.removeFavorite st u articleId).2 = st)
    ∧ (Article.removeFavorite st u articleId).2.readArticles = st.readArticles
    ∧ (Article.removeFavorite st u articleId).2.articleMetadata
        = st.articleMetadata
    ∧ (∀ u', u' ≠ u →
        alookup (Article.removeFavorite st u articleId).2.favoriteArticles u'
          = alookup st.favoriteArticles u')
    ∧ (∀ id', id' ≠ articleId →
        Article.isFavorite (Article.removeFavorite st u articleId).2 u id'
          = Article.isFavorite st u id')
    ∧ ((∀ fm, alookup st.favoriteArticles u = some fm →
          (fm.map Prod.fst).Nodup) →
        Article.isFavorite (Article.removeFavorite st u articleId).2 u articleId
          = false)
    ∧ ((removeFavoriteController st u articleId).1
        = if Article.isFavorite st u articleId then 200 else 404) := by
  cases hfm : alookup st.favoriteArticles u with
  | none =>
    refine ⟨?_, ?_, ?_, ?_, ?_, ?_, ?_, ?_⟩
    · simp [Article.removeFavorite, Article.isFavorite, hfm]
    · intro _; simp [Article.removeFavorite, hfm]
    · simp [Article.removeFavorite, hfm]
    · simp [Article.removeFavorite, hfm]
    · intro u' _; simp [Article.removeFavorite, hfm]
    · intro id' _; simp [Article.removeFavorite, hfm]
    · intro _
      simp [Article.removeFavorite, Article.isFavorite, hfm]
    · simp [removeFavoriteController, Article.removeFavorite,
        Article.isFavorite, hfm]
  | some fm =>
    have hfst : (Article.removeFavorite st u articleId).1
        = Article.isFavorite st u articleId := by
      simp [Article.removeFavorite, Article.isFavorite, hfm, adelete_fst]
    have hufav : alookup
        (Article.removeFavorite st u articleId).2.favoriteArticles u
          = some (adelete fm articleId).2 := by
      simp [Article.removeFavorite, hfm, alookup_aset]
    refine ⟨hfst, ?_, ?_, ?_, ?_, ?_, ?_, ?_⟩
    · intro hfalse
      rw [hfst] at hfalse
      have hnone : alookup fm articleId = none := by
        simp only [Article.isFavorite, hfm] at hfalse
        rw [← Option.not_isSome_iff_eq_none]
        simp [hfalse]
      have hdel : adelete fm articleId = (false, fm) :=
        adelete_of_alookup_none hnone
      have hset : aset st.favoriteArticles u fm = st.favoriteArticles :=
        aset_eq_self hfm
      simp [Article.removeFavorite, hfm, hdel, hset]
    · simp [Article.removeFavorite, hfm]
    · simp [Article.removeFavorite, hfm]
    · intro u' hu'
      have : ¬ u = u' := fun he => hu' he.symm
      simp [Article.removeFavorite, hfm, alookup_aset, this]
    · intro id' hid'
      simp only [Article.isFavorite, hufav, hfm]
      rw [alookup_adelete_ne fm articleId id' hid']
    · intro hnod
      simp only [Article.isFavorite, hufav]
      rw [alookup_adelete_self articleId (hnod fm rfl)]
      rfl
    · cases hb : Article.isFavorite st u articleId with
      | true =>
        simp [removeFavoriteController, hfst, hb]
      | false =>
        simp [removeFavoriteController, hfst, hb]

/-- C9 (witness): removing a present favorite returns true and removes it;
removing it a second time returns false and yields a 404 status. -/
theorem C9_removeFavorite_witness :
    (Article.removeFavorite stFav 1 "x").1 = Article.isFavorite stFav 1 "x"
    ∧ Article.isFavorite stFav 1 "x" = true
    ∧ Article.isFavorite (Article.removeFavorite stFav 1 "x").2 1 "x" = false
    ∧ (removeFavoriteController (Article.removeFavorite stFav 1 "x").2 1 "x").1
        = 404 := by
  have h1 := C9_removeFavorite_spec stFav 1 "x"
  have h2 := C9_removeFavorite_spec (Article.removeFavorite stFav 1 "x").2 1 "x"
  refine ⟨h1.1, by decide, ?_, ?_⟩
  · exact h1.2.2.2.2.2.2.1 (by decide)
  · rw [h2.2.2.2.2.2.2.2]
    rw [h1.2.2.2.2.2.2.1 (by decide)]
    rfl

/-! ## Claim C10: read marks without metadata -/

/-- C10: marking an id with no metadata as read makes `isRead` true, yet
`getReadArticles` gains no entry (ids without metadata are filtered out),
while `totalRead` counts it when it is newly read — so `totalRead`
strictly exceeds the length of `getReadArticles`. -/
theorem C10_markAsReadById_no_metadata (st : ArticleState) (u : Nat)
    (articleId : String) (now : Int)
    (hmeta : alookup st.articleMetadata articleId = none) :
    Article.isRead (Article.markAsReadById st u articleId now).1 u articleId
        = true
    ∧ Article.getReadArticles (Article.markAsReadById st u articleId now).1 u
        = Article.getReadArticles st u
    ∧ (Article.isRead st u articleId = false →
        (Article.getUserStats (Article.markAsReadById st u articleId now).1
            u).totalRead
          = (Article.getUserStats st u).totalRead + 1)
    ∧ (Article.getReadArticles (Article.markAsReadById st u articleId now).1
          u).length
        < (Article.getUserStats (Article.markAsReadById st u articleId now).1
            u).totalRead := by
  set cur := (alookup st.readArticles u).getD [] with hcur
  have hread : alookup
      (Article.markAsReadById st u articleId now).1.readArticles u
        = some (if articleId ∈ cur then cur else cur ++ [articleId]) := by
    simp [Article.markAsReadById, alookup_aset, hcur]
  have hmem : articleId ∈ (if articleId ∈ cur then cur else cur ++ [articleId]) := by
    by_cases hm : articleId ∈ cur
    · simp [hm]
    · simp [hm]
  have hmetaeq : (Article.markAsReadById st u articleId now).1.articleMetadata
      = st.articleMetadata := by
    simp [Article.markAsReadById]
  refine ⟨?_, ?_, ?_, ?_⟩
  · simp [Article.isRead, hread, hmem]
  · rw [Article.getReadArticles, hread, hmetaeq]
    simp only [Option.getD_some]
    by_cases hm : articleId ∈ cur
    · rw [if_pos hm, Article.getReadArticles, hcur]
    · rw [if_neg hm, List.filterMap_append]
      simp [hmeta, Article.getReadArticles, hcur]
  · intro hnr
    have hm : articleId ∉ cur := by
      intro hmm
      rw [Article.isRead] at hnr
      cases hl : alookup st.readArticles u with
      | none =>
        rw [hcur, hl] at hmm
        simp at hmm
      | some s =>
        rw [hl] at hnr
        rw [hcur, hl] at hmm
        simp only [Option.getD_some] at hmm
        simp [hmm] at hnr
    rw [Article.getUserStats, Article.getUserStats]
    simp only [hread, if_neg hm, Option.getD_some]
    simp [hcur]
  · rw [Article.getReadArticles, Article.getUserStats]
    simp only [hread, Option.getD_some, hmetaeq]
    exact length_filterMap_lt_of_mem_none hmem hmeta

/-- C10 (witness): in the empty store, marking "ghost" (no metadata) as
read for user 1 gives `isRead` true, an empty read-articles list, and
`totalRead` 1 exceeding its length. -/
theorem C10_markAsReadById_witness :
    Article.isRead (Article.markAsReadById stEmpty 1 "ghost" 4).1 1 "ghost" = true
    ∧ Article.getReadArticles (Article.markAsReadById stEmpty 1 "ghost" 4).1 1
        = Article.getReadArticles stEmpty 1
    ∧ (Article.getReadArticles (Article.markAsReadById stEmpty 1 "ghost" 4).1
          1).length
        < (Article.getUserStats (Article.markAsReadById stEmpty 1 "ghost" 4).1
            1).totalRead := by
  have h := C10_markAsReadById_no_metadata stEmpty 1 "ghost" 4 (by decide)
  exact ⟨h.1, h.2.1, h.2.2.2⟩

/-! ## Claims C4 and C5: the personalization merge -/

/-- The merge fold extends the accumulator with exactly the articles whose
URLs were not yet seen, in order. -/
theorem foldl_mergeStep (l : List GArticle) :
    ∀ acc : List GArticle × List String,
      l.foldl mergeStep acc
        = (acc.1 ++ dedupAvoid acc.2 l,
           acc.2 ++ (dedupAvoid acc.2 l).map GArticle.url) := by
  induction l with
  | nil => intro acc; simp [dedupAvoid]
  | cons a rest ih =>
    intro acc
    by_cases h : a.url ∈ acc.2
    · rw [List.foldl_cons]
      have hstep : mergeStep acc a = acc := by simp [mergeStep, h]
      rw [hstep, ih]
      simp [dedupAvoid, h]
    · rw [List.foldl_cons]
      have hstep : mergeStep acc a = (acc.1 ++ [a], acc.2 ++ [a.url]) := by
        simp [mergeStep, h]
      rw [hstep, ih]
      simp [dedupAvoid, h]

/-- The merge loop over the result lists deduplicates their concatenation. -/
theorem mergeArticles_eq_dedupAvoid (results : List (List GArticle)) :
    mergeArticles results = dedupAvoid [] results.flatten := by
  rw [mergeArticles, ← List.foldl_flatten]
  rw [foldl_mergeStep results.flatten ([], [])]
  simp

/-- Seen-set deduplication equals spec-style first-occurrence
deduplication of the unseen articles. -/
theorem dedupAvoid_eq_dedupByUrl (l : List GArticle) :
    ∀ seen,
      dedupAvoid seen l
        = dedupByUrl (l.filter (fun a => decide (a.url ∉ seen))) := by
  induction l with
  | nil => intro seen; simp [dedupAvoid, dedupByUrl]
  | cons a rest ih =>
    intro seen
    by_cases h : a.url ∈ seen
    · rw [List.filter_cons]
      have hd : (decide (a.url ∉ seen)) = false := by simp [h]
      rw [hd]
      simp only [Bool.false_eq_true, if_false]
      simp only [dedupAvoid, h, if_true]
      exact ih seen
    · rw [List.filter_cons]
      have hd : (decide (a.url ∉ seen)) = true := by simp [h]
      rw [hd]
      simp only [if_true]
      rw [dedupByUrl, List.filter_filter]
      simp only [dedupAvoid, h, if_false]
      rw [ih (seen ++ [a.url])]
      apply congrArg (fun l => a :: dedupByUrl l)
      apply List.filter_congr
      intro x _
      by_cases h1 : x.url ∈ seen <;> by_cases h2 : x.url = a.url <;>
        simp [List.mem_append, h1, h2]

/-- The merge loop computes spec-style deduplication by URL of the
concatenated results. -/
theorem mergeArticles_eq_dedupByUrl (results : List (List GArticle)) :
    mergeArticles results = dedupByUrl results.flatten := by
  rw [mergeArticles_eq_dedupAvoid, dedupAvoid_eq_dedupByUrl]
  have hf : List.filter (fun a : GArticle => decide (a.url ∉ ([] : List String)))
      results.flatten = results.flatten :=
    List.filter_eq_self.mpr (fun a _ => by simp)
  rw [hf]

/-- Deduplicated output mentions each URL at most once (and never a URL
already seen). -/
theorem dedupAvoid_count_le_one (l : List GArticle) :
    ∀ (seen : List String) (u : String),
      (u ∈ seen →
        (dedupAvoid seen l).filter (fun a => decide (a.url = u)) = [])
      ∧ ((dedupAvoid seen l).filter (fun a => decide (a.url = u))).length ≤ 1 := by
  induction l with
  | nil => intro seen u; simp [dedupAvoid]
  | cons a rest ih =>
    intro seen u
    by_cases h : a.url ∈ seen
    · simp only [dedupAvoid, h, if_true]
      exact ih seen u
    · simp only [dedupAvoid, h, if_false]
      constructor
      · intro hu
        rw [List.filter_cons]
        have hne : (decide (a.url = u)) = false := by
          simp only [decide_eq_false_iff_not]
          intro he
          exact h (he ▸ hu)
        rw [hne]
        simp only [Bool.false_eq_true, if_false]
        exact (ih (seen ++ [a.url]) u).1 (List.mem_append_left _ hu)
      · rw [List.filter_cons]
        by_cases he : a.url = u
        · have hd : (decide (a.url = u)) = true := by simp [he]
          rw [hd]
          simp only [if_true]
          have htail : (dedupAvoid (seen ++ [a.url]) rest).filter
              (fun a' => decide (a'.url = u)) = [] :=
            (ih (seen ++ [a.url]) u).1
              (by rw [← he]; exact List.mem_append_right _ (List.mem_singleton_self _))
          rw [htail]
          simp
        · have hd : (decide (a.url = u)) = false := by simp [he]
          rw [hd]
          simp only [Bool.false_eq_true, if_false]
          exact (ih (seen ++ [a.url]) u).2

/-- C4: for a non-empty preference list, `getPersonalizedNews` returns the
per-preference result lists concatenated in preference order, deduplicated
by URL with the first occurrence winning, truncated to at most 10
articles, with every URL occurring at most once. -/
theorem C4_personalized_merge (fetch : String → List GArticle)
    (prefs : List String) (hne : prefs ≠ []) :
    (getPersonalizedNews fetch prefs).articles
        = (dedupByUrl (prefs.map fetch).flatten).take 10
    ∧ (getPersonalizedNews fetch prefs).totalArticles
        = (getPersonalizedNews fetch prefs).articles.length
    ∧ (getPersonalizedNews fetch prefs).articles.length ≤ 10
    ∧ ∀ u, ((getPersonalizedNews fetch prefs).articles.filter
          (fun a => decide (a.url = u))).length ≤ 1 := by
  have hpe : prefs.isEmpty = false := by
    cases prefs with
    | nil => exact absurd rfl hne
    | cons p t => rfl
  have hart : (getPersonalizedNews fetch prefs).articles
      = (mergeArticles (prefs.map fetch)).take 10 := by
    simp [getPersonalizedNews, hpe]
  refine ⟨?_, ?_, ?_, ?_⟩
  · rw [hart, mergeArticles_eq_dedupByUrl]
  · simp [getPersonalizedNews, hpe]
  · rw [hart]
    exact List.length_take_le 10 _
  · intro u
    rw [hart, mergeArticles_eq_dedupAvoid]
    have hsub := (List.take_sublist 10
      (dedupAvoid [] (prefs.map fetch).flatten)).filter
      (fun a => decide (a.url = u))
    exact le_trans hsub.length_le
      (dedupAvoid_count_le_one (prefs.map fetch).flatten [] u).2

/-- C4 (witness): with both copies of preference "a" returning the same
article, the personalized result contains it exactly once. -/
theorem C4_personalized_merge_witness :
    (getPersonalizedNews fetchFixture ["a", "a"]).articles = [⟨"u1", "t1"⟩]
    ∧ ((getPersonalizedNews fetchFixture ["a", "a"]).articles.filter
        (fun a => decide (a.url = "u1"))).length ≤ 1 := by
  refine ⟨by decide, ?_⟩
  exact (C4_personalized_merge fetchFixture ["a", "a"] (by decide)).2.2.2 "u1"

/-- C5: a failing per-preference fetch contributes zero articles, and the
whole personalized request still succeeds with the surviving preferences'
articles. -/
theorem C5_partial_failure_isolation
    (fetch : String → Except NewsError (List GArticle)) (prefs : List String)
    (b : String) (e : NewsError) (hb : fetch b = .error e) :
    getPersonalizedNewsE fetch prefs
        = .ok (getPersonalizedNews (catchFetch fetch) prefs)
    ∧ catchFetch fetch b = [] := by
  constructor
  · cases hp : prefs.isEmpty <;>
      simp [getPersonalizedNewsE, getPersonalizedNews, hp]
  · simp [catchFetch, hb]

/-- C5 (witness): with preference "b" failing, personalizing
`["a", "b"]` succeeds and yields exactly "a"'s article. -/
theorem C5_partial_failure_witness :
    getPersonalizedNewsE fetchFixtureE ["a", "b"]
        = .ok (getPersonalizedNews (catchFetch fetchFixtureE) ["a", "b"])
    ∧ (getPersonalizedNews (catchFetch fetchFixtureE) ["a", "b"]).articles
        = [⟨"ua", "ta"⟩] := by
  refine ⟨(C5_partial_failure_isolation fetchFixtureE ["a", "b"] "b"
    NewsError.networkError (by simp [fetchFixtureE])).1, by decide⟩

/-! ## Claim C3: article id derivation -/

/-- `base64Index` inverts `base64Char` on alphabet indices. -/
theorem base64Index_base64Char : ∀ n : Nat, n < 64 →
    base64Index (base64Char n) = n := by decide

/-- Alphabet characters are never the padding character. -/
theorem base64Char_ne_pad : ∀ n : Nat, n < 64 → base64Char n ≠ '=' := by decide

/-- `base64Decode` inverts `base64Encode` on byte lists. -/
theorem base64Decode_base64Encode : ∀ l : List Nat, (∀ b ∈ l, b < 256) →
    base64Decode (base64Encode l) = l
  | [], _ => rfl
  | [b1], h => by
    have hb1 : b1 < 256 := h b1 (by simp)
    simp only [base64Encode, base64Decode, if_pos]
    rw [base64Index_base64Char _ (by omega), base64Index_base64Char _ (by omega)]
    have he : b1 / 4 * 4 + b1 % 4 * 16 / 16 = b1 := by omega
    rw [he]
  | [b1, b2], h => by
    have hb1 : b1 < 256 := h b1 (by simp)
    have hb2 : b2 < 256 := h b2 (by simp)
    simp only [base64Encode, base64Decode]
    rw [if_neg (base64Char_ne_pad _ (by omega))]
    simp only [if_true]
    rw [base64Index_base64Char _ (by omega), base64Index_base64Char _ (by omega),
      base64Index_base64Char _ (by omega)]
    have he1 : b1 / 4 * 4 + (b1 % 4 * 16 + b2 / 16) / 16 = b1 := by omega
    have he2 : (b1 % 4 * 16 + b2 / 16) % 16 * 16 + b2 % 16 * 4 / 4 = b2 := by
      omega
    rw [he1, he2]
  | b1 :: b2 :: b3 :: rest, h => by
    have hb1 : b1 < 256 := h b1 (by simp)
    have hb2 : b2 < 256 := h b2 (by simp)
    have hb3 : b3 < 256 := h b3 (by simp)
    simp only [base64Encode, base64Decode]
    rw [if_neg (base64Char_ne_pad _ (by omega)),
      if_neg (base64Char_ne_pad _ (by omega))]
    rw [base64Index_base64Char _ (by omega), base64Index_base64Char _ (by omega),
      base64Index_base64Char _ (by omega), base64Index_base64Char _ (by omega)]
    rw [base64Decode_base64Encode rest (fun b hb => h b (by simp [hb]))]
    have he1 : b1 / 4 * 4 + (b1 % 4 * 16 + b2 / 16) / 16 = b1 := by omega
    have he2 : (b1 % 4 * 16 + b2 / 16) % 16 * 16 + (b2 % 16 * 4 + b3 / 64) / 4
        = b2 := by omega
    have he3 : (b2 % 16 * 4 + b3 / 64) % 4 * 64 + b3 % 64 = b3 := by omega
    rw [he1, he2, he3]

/-- The base64 encoding of `n` bytes has `4 * ((n + 2) / 3)` characters. -/
theorem length_base64Encode : ∀ l : List Nat,
    (base64Encode l).length = 4 * ((l.length + 2) / 3)
  | [] => rfl
  | [b1] => by simp [base64Encode]
  | [b1, b2] => by simp [base64Encode]
  | b1 :: b2 :: b3 :: rest => by
    simp only [base64Encode, List.length_cons]
    rw [length_base64Encode rest]
    omega

/-- Base64 encoding splits at 3-byte boundaries. -/
theorem base64Encode_append : ∀ l1 l2 : List Nat, l1.length % 3 = 0 →
    base64Encode (l1 ++ l2) = base64Encode l1 ++ base64Encode l2
  | [], l2, _ => rfl
  | [b1], l2, hmod => by simp at hmod
  | [b1, b2], l2, hmod => by simp at hmod
  | b1 :: b2 :: b3 :: rest, l2, hmod => by
    have ih := base64Encode_append rest l2 (by
      simp only [List.length_cons] at hmod
      omega)
    simp only [List.cons_append, base64Encode, List.append_eq]
    rw [ih]

/-- C3 (counterexample): the ids of two distinct URLs sharing their first
24 UTF-8 bytes coincide deterministically — the id is the base64 encoding
truncated to 32 characters, which covers only 24 bytes — so ids do not
differ with overwhelming probability for distinct URLs. -/
theorem C3_idFor_collision_counterexample :
    generateArticleId (strBytes "https://www.example.com/a")
        = generateArticleId (strBytes "https://www.example.com/b")
    ∧ strBytes "https://www.example.com/a"
        ≠ strBytes "https://www.example.com/b" := by
  constructor
  · decide
  · decide

/-- C3 (amended): `generateArticleId` is a pure deterministic function of
the URL bytes; for URLs of at most 24 bytes ids agree exactly when the
URLs agree, while for URLs of at least 24 bytes ids agree exactly when the
first 24 bytes agree — so distinct URLs sharing a 24-byte prefix
collide. -/
theorem C3_idFor_determinism_and_collision (u1 u2 : List Nat)
    (h1 : ∀ b ∈ u1, b < 256) (h2 : ∀ b ∈ u2, b < 256) :
    (u1.length ≤ 24 → u2.length ≤ 24 →
      (generateArticleId u1 = generateArticleId u2 ↔ u1 = u2))
    ∧ (24 ≤ u1.length → 24 ≤ u2.length →
      (generateArticleId u1 = generateArticleId u2
        ↔ u1.take 24 = u2.take 24)) := by
  have key : ∀ (l : List Nat), l.length ≤ 24 →
      (base64Encode l).take 32 = base64Encode l := by
    intro l hl
    apply List.take_of_length_le
    rw [length_base64Encode]
    omega
  have idTake : ∀ (l : List Nat), 24 ≤ l.length →
      (base64Encode l).take 32 = base64Encode (l.take 24) := by
    intro l hl
    conv_lhs => rw [← List.take_append_drop 24 l]
    rw [base64Encode_append _ _ (by
      rw [List.length_take, Nat.min_eq_left hl])]
    apply List.take_left'
    rw [length_base64Encode, List.length_take, Nat.min_eq_left hl]
  constructor
  · intro h24a h24b
    constructor
    · intro he
      have hd : (base64Encode u1).take 32 = (base64Encode u2).take 32 :=
        congrArg String.data he
      rw [key u1 h24a, key u2 h24b] at hd
      calc u1 = base64Decode (base64Encode u1) :=
            (base64Decode_base64Encode u1 h1).symm
        _ = base64Decode (base64Encode u2) := by rw [hd]
        _ = u2 := base64Decode_base64Encode u2 h2
    · intro he
      rw [he]
  · intro h24a h24b
    constructor
    · intro he
      have hd : (base64Encode u1).take 32 = (base64Encode u2).take 32 :=
        congrArg String.data he
      rw [idTake u1 h24a, idTake u2 h24b] at hd
      calc u1.take 24 = base64Decode (base64Encode (u1.take 24)) :=
            (base64Decode_base64Encode _
              (fun b hb => h1 b (List.mem_of_mem_take hb))).symm
        _ = base64Decode (base64Encode (u2.take 24)) := by rw [hd]
        _ = u2.take 24 := base64Decode_base64Encode _
              (fun b hb => h2 b (List.mem_of_mem_take hb))
    · intro he
      show String.mk ((base64Encode u1).take 32)
          = String.mk ((base64Encode u2).take 32)
      rw [idTake u1 h24a, idTake u2 h24b, he]

/-- C3 (witness): the amended characterization at concrete URLs — two long
URLs with equal 24-byte prefixes get equal ids, and two short distinct
URLs get distinct ids. -/
theorem C3_idFor_witness :
    (generateArticleId (strBytes "https://www.example.com/a")
        = generateArticleId (strBytes "https://www.example.com/b")
      ↔ (strBytes "https://www.example.com/a").take 24
          = (strBytes "https://www.example.com/b").take 24)
    ∧ (generateArticleId (strBytes "news.com/x")
        = generateArticleId (strBytes "news.com/y")
      ↔ strBytes "news.com/x" = strBytes "news.com/y") := by
  constructor
  · exact (C3_idFor_determinism_and_collision
      (strBytes "https://www.example.com/a")
      (strBytes "https://www.example.com/b")
      (by decide) (by decide)).2 (by decide) (by decide)
  · exact (C3_idFor_determinism_and_collision
      (strBytes "news.com/x") (strBytes "news.com/y")
      (by decide) (by decide)).1 (by decide) (by decide)

/-! ## Claim C1: the metadata sweep -/

/-- The favorites scan of `clearOldMetadata` removes exactly the favorited
ids from the pending-deletion list. -/
theorem favScan_eq_filter (favs : List (Nat × List (String × FavoriteEntry)))
    (td : List String) (hn : td.Nodup) :
    favs.foldl (fun td' q => Article.favKeyErase td' q.2) td
      = td.filter (fun x =>
          decide (x ∉ (favs.map (fun q => q.2.map Prod.fst)).flatten)) := by
  have h1 : favs.foldl (fun td' q => Article.favKeyErase td' q.2) td
      = (favs.map (fun q => q.2.map Prod.fst)).foldl
          (fun td' ks => ks.foldl (fun a k => a.erase k) td') td := by
    have hfun : (fun (td' : List String)
          (q : Nat × List (String × FavoriteEntry)) =>
          Article.favKeyErase td' q.2)
        = fun td' q =>
            List.foldl (fun a k => a.erase k) td' (q.2.map Prod.fst) := by
      funext td' q
      rw [Article.favKeyErase, List.foldl_map]
    rw [hfun, List.foldl_map]
  rw [h1, ← List.foldl_flatten]
  exact foldl_erase_eq_filter _ _ hn

/-- With nodup keys, a pair's key survives into the keys of a filtered
association list exactly when the pair satisfies the filter. -/
theorem key_mem_filter_iff {α β : Type} [DecidableEq α] {m : List (α × β)}
    (hn : (m.map Prod.fst).Nodup) {p : α × β} (hp : p ∈ m) (q : α × β → Bool) :
    p.1 ∈ (m.filter q).map Prod.fst ↔ q p = true := by
  constructor
  · intro hmem
    obtain ⟨p', hp', he⟩ := List.mem_map.1 hmem
    obtain ⟨hp'm, hq⟩ := List.mem_filter.1 hp'
    have e1 : alookup m p.1 = some p.2 := alookup_of_mem_nodup hn hp
    have e2 : alookup m p.1 = some p'.2 := by
      rw [← he]
      exact alookup_of_mem_nodup hn hp'm
    have hsnd : p'.2 = p.2 := by
      rw [e1] at e2
      injection e2 with h
      exact h.symm
    have hpp : p' = p := Prod.ext he hsnd
    rw [hpp] at hq
    exact hq
  · intro hq
    exact List.mem_map_of_mem Prod.fst (List.mem_filter.2 ⟨hp, hq⟩)

/-- C1: `clearOldMetadata` leaves every read set and favorites map
unchanged, keeps exactly the metadata entries that are young enough or
favorited by some user (so a favorited id is never deleted, whereas a read
mark protects nothing), and returns the number of entries actually
deleted. -/
theorem C1_clearOldMetadata_sweep (st : ArticleState) (now maxAge : Int)
    (hn : (st.articleMetadata.map Prod.fst).Nodup) :
    (Article.clearOldMetadata st now maxAge).1.readArticles = st.readArticles
    ∧ (Article.clearOldMetadata st now maxAge).1.favoriteArticles
        = st.favoriteArticles
    ∧ (Article.clearOldMetadata st now maxAge).1.articleMetadata
        = st.articleMetadata.filter (fun p =>
            decide (¬(now - p.2.cachedAt > maxAge
              ∧ p.1 ∉ Article.allFavIds st)))
    ∧ (∀ articleId, articleId ∈ Article.allFavIds st →
        alookup (Article.clearOldMetadata st now maxAge).1.articleMetadata
            articleId
          = alookup st.articleMetadata articleId)
    ∧ (Article.clearOldMetadata st now maxAge).2
        = (st.articleMetadata.filter (fun p =>
            decide (now - p.2.cachedAt > maxAge
              ∧ p.1 ∉ Article.allFavIds st))).length := by
  have hnd0 : (((st.articleMetadata.filter
      (fun p => decide (now - p.2.cachedAt > maxAge))).map Prod.fst)).Nodup :=
    ((List.filter_sublist st.articleMetadata).map Prod.fst).nodup hn
  have hscan : st.favoriteArticles.foldl
        (fun td q => Article.favKeyErase td q.2)
        ((st.articleMetadata.filter
          (fun p => decide (now - p.2.cachedAt > maxAge))).map Prod.fst)
      = ((st.articleMetadata.filter
          (fun p => decide (now - p.2.cachedAt > maxAge))).map Prod.fst).filter
          (fun x => decide (x ∉ Article.allFavIds st)) := by
    rw [Article.allFavIds]
    exact favScan_eq_filter _ _ hnd0
  have hmem : ∀ p ∈ st.articleMetadata,
      (p.1 ∈ ((st.articleMetadata.filter
          (fun p' => decide (now - p'.2.cachedAt > maxAge))).map Prod.fst).filter
          (fun x => decide (x ∉ Article.allFavIds st)))
        ↔ (now - p.2.cachedAt > maxAge ∧ p.1 ∉ Article.allFavIds st) := by
    intro p hp
    rw [List.mem_filter,
      key_mem_filter_iff hn hp (fun p' => decide (now - p'.2.cachedAt > maxAge))]
    simp
  have hmeta : (Article.clearOldMetadata st now maxAge).1.articleMetadata
      = st.articleMetadata.filter (fun p =>
          decide (¬(now - p.2.cachedAt > maxAge
            ∧ p.1 ∉ Article.allFavIds st))) := by
    show (st.favoriteArticles.foldl (fun td q => Article.favKeyErase td q.2)
        ((st.articleMetadata.filter
          (fun p => decide (now - p.2.cachedAt > maxAge))).map Prod.fst)).foldl
        (fun m articleId => (adelete m articleId).2) st.articleMetadata
      = _
    rw [hscan, foldl_adelete_eq_filter _ _ hn]
    apply List.filter_congr
    intro p hp
    rw [decide_eq_decide]
    exact not_congr (hmem p hp)
  refine ⟨rfl, rfl, hmeta, ?_, ?_⟩
  · intro articleId hfav
    rw [hmeta, alookup_filter_keys _ _ hn]
    cases hv : alookup st.articleMetadata articleId with
    | none => rfl
    | some v =>
      simp only []
      rw [if_pos]
      simp only [decide_eq_true_eq]
      intro hcontra
      exact hcontra.2 hfav
  · show (st.favoriteArticles.foldl (fun td q => Article.favKeyErase td q.2)
        ((st.articleMetadata.filter
          (fun p => decide (now - p.2.cachedAt > maxAge))).map Prod.fst)).length
      = _
    rw [hscan]
    rw [List.filter_map, List.length_map, List.filter_filter]
    apply congrArg
    apply List.filter_congr
    intro p _
    by_cases h1 : now - p.2.cachedAt > maxAge <;>
      by_cases h2 : p.1 ∈ Article.allFavIds st <;> simp [h1, h2]

/-- C1 (witness): sweeping the concrete store at time 100 with maxAge 50
deletes exactly the old unfavorited entry "oldPlain" (count 1), keeps the
old favorited entry "oldFav" and the fresh entry, and leaves read sets and
favorites unchanged. -/
theorem C1_clearOldMetadata_witness :
    (Article.clearOldMetadata stSweep 100 50).1.readArticles
        = stSweep.readArticles
    ∧ (Article.clearOldMetadata stSweep 100 50).1.favoriteArticles
        = stSweep.favoriteArticles
    ∧ alookup (Article.clearOldMetadata stSweep 100 50).1.articleMetadata
        "oldFav" = alookup stSweep.articleMetadata "oldFav"
    ∧ (Article.clearOldMetadata stSweep 100 50).2 = 1 := by
  have h := C1_clearOldMetadata_sweep stSweep 100 50 (by decide)
  refine ⟨h.1, h.2.1, h.2.2.2.1 "oldFav" (by decide), ?_⟩
  rw [h.2.2.2.2]
  decide

end NewsAgg
